import Mathlib

/-!
# cloud-run-rollback: revision selection and traffic update

A shallow embedding of `rollback.go`.

* `Revision` and its nested structures follow the Go struct field by field; every field
  defaults to the Go zero value, so `({} : Revision)` is `Revision{}`.
* `time.Time` is kept as the pair (seconds, nanoseconds) that `Time.After` compares.
* `sort.Slice` is a library routine whose tie order is not promised by its documentation.
  The selection takes the sorting routine as an argument; `SortsBy` states what the
  library promises (a rearrangement of the input in which no later element is `less` than
  an earlier one). `insertionSortLess` is the routine the Go library runs on slices of at
  most twelve elements (the listing is capped at five) and is shown to satisfy `SortsBy`.
* External processes and the JSON decoder are fields of `Env`; every executed command is
  recorded in a trace of `Event`s.
-/

namespace Rollback

/-! ## Data model -/

/-- The instant of a `time.Time` without monotonic clock reading: whole seconds and the
nanosecond offset inside the second. The zero value is the Go zero `Time`. -/
structure Time where
  sec : Int := 0
  nsec : Nat := 0
  deriving DecidableEq

/-- Go `Time.After` for values without monotonic reading:
`ts > us || ts == us && t.nsec() > u.nsec()`. -/
def Time.After (t u : Time) : Bool :=
  decide (t.sec > u.sec) || (decide (t.sec = u.sec) && decide (t.nsec > u.nsec))

structure Annotations where
  AutoscalingKnativeDevMaxScale : String := ""
  ClientKnativeDevUserImage : String := ""
  RunGoogleapisComClientName : String := ""
  RunGoogleapisComCPUThrottling : String := ""
  RunGoogleapisComExecutionEnvironment : String := ""
  RunGoogleapisComOperationID : String := ""
  RunGoogleapisComStartupCPUBoost : String := ""
  ServingKnativeDevCreator : String := ""
  deriving DecidableEq

structure Labels where
  CloudGoogleapisComLocation : String := ""
  ServingKnativeDevConfiguration : String := ""
  ServingKnativeDevConfigurationGeneration : String := ""
  ServingKnativeDevRoute : String := ""
  ServingKnativeDevService : String := ""
  ServingKnativeDevServiceUID : String := ""
  deriving DecidableEq

structure OwnerReference where
  APIVersion : String := ""
  BlockOwnerDeletion : Bool := false
  Controller : Bool := false
  Kind : String := ""
  Name : String := ""
  UID : String := ""
  deriving DecidableEq

structure Metadata where
  Annotations : Annotations := {}
  CreationTimestamp : Time := {}
  Generation : Int := 0
  Labels : Labels := {}
  Name : String := ""
  Namespace : String := ""
  OwnerReferences : List OwnerReference := []
  ResourceVersion : String := ""
  SelfLink : String := ""
  UID : String := ""
  deriving DecidableEq

structure EnvVar where
  Name : String := ""
  Value : String := ""
  deriving DecidableEq

structure Port where
  ContainerPort : Int := 0
  Name : String := ""
  deriving DecidableEq

structure Limits where
  CPU : String := ""
  Memory : String := ""
  deriving DecidableEq

structure Resources where
  Limits : Limits := {}
  deriving DecidableEq

structure Container where
  Env : List EnvVar := []
  Image : String := ""
  Name : String := ""
  Ports : List Port := []
  Resources : Resources := {}
  deriving DecidableEq

structure Spec where
  ContainerConcurrency : Int := 0
  Containers : List Container := []
  ServiceAccountName : String := ""
  TimeoutSeconds : Int := 0
  deriving DecidableEq

structure Condition where
  LastTransitionTime : Time := {}
  Reason : String := ""
  Status : String := ""
  /-- Go field `Type` (a reserved word here). -/
  Type_ : String := ""
  Severity : String := ""
  deriving DecidableEq

structure Status where
  Conditions : List Condition := []
  ImageDigest : String := ""
  LogURL : String := ""
  ObservedGeneration : Int := 0
  deriving DecidableEq

structure Revision where
  APIVersion : String := ""
  Kind : String := ""
  Metadata : Metadata := {}
  Spec : Spec := {}
  Status : Status := {}
  deriving DecidableEq

/-! ## Sorting -/

/-- The `less` closure handed to `sort.Slice`:
`revisions[i].Metadata.CreationTimestamp.After(revisions[j].Metadata.CreationTimestamp)`. -/
def newerFirst (a b : Revision) : Bool :=
  a.Metadata.CreationTimestamp.After b.Metadata.CreationTimestamp

/-- The inner loop of the Go library insertion sort,
`for j := i; j > a && less(j, j-1); j-- { swap(j, j-1) }`.
The already sorted prefix is passed back to front (its head is position `j-1`), and the
result is again back to front. -/
def sinkLeft {α : Type} (less : α → α → Bool) (x : α) : List α → List α
  | [] => [x]
  | y :: ys => if less x y then y :: sinkLeft less x ys else x :: y :: ys

/-- The outer loop of the insertion sort, `for i := a + 1; i < b; i++`, carrying the
sorted prefix back to front. -/
def insertionLoop {α : Type} (less : α → α → Bool) : List α → List α → List α
  | done, [] => done
  | done, x :: rest => insertionLoop less (sinkLeft less x done) rest

/-- The insertion sort that `sort.Slice` runs on short slices. -/
def insertionSortLess {α : Type} (less : α → α → Bool) (data : List α) : List α :=
  (insertionLoop less [] data).reverse

/-- What `sort.Slice` promises of its result for the `less` in use: it is a rearrangement
of the input, and no element is `less` than one placed before it. -/
def SortsBy {α : Type} (less : α → α → Bool) (sortSlice : List α → List α) : Prop :=
  ∀ l, (sortSlice l).Perm l ∧ (sortSlice l).Pairwise (fun a b => less b a = false)

/-! ## Selection -/

/-- The test of line 134 on one condition. -/
def isRetiredTrue (c : Condition) : Bool :=
  c.Reason == "Retired" && c.Status == "True"

/-- The inner loop of lines 133-138 for the record `r`: the first matching condition
assigns `r` to the accumulator and leaves the loop. -/
def conditionLoop (r : Revision) : List Condition → Revision → Revision
  | [], retiredRevision => retiredRevision
  | c :: cs, retiredRevision =>
    if isRetiredTrue c then r else conditionLoop r cs retiredRevision

/-- The outer loop of lines 132-142, threading the accumulator `retiredRevision`. -/
def revisionLoop : List Revision → Revision → Revision
  | [], retiredRevision => retiredRevision
  | r :: rs, retiredRevision =>
    let retiredRevision := conditionLoop r r.Status.Conditions retiredRevision
    if retiredRevision.Metadata.Name != "" then retiredRevision
    else revisionLoop rs retiredRevision

/-- Lines 119 and 131-149: the scan from the zero-valued accumulator followed by the
final emptiness check. -/
def scanRetired (revisions : List Revision) : Except String Revision :=
  let retiredRevision := revisionLoop revisions {}
  if retiredRevision.Metadata.Name == "" then
    Except.error "no retired revision found"
  else
    Except.ok retiredRevision

/-- Lines 126-149: sort newest first, then scan. -/
def selectRetired (sortSlice : List Revision → List Revision) (revisions : List Revision) :
    Except String Revision :=
  scanRetired (sortSlice revisions)

/-- A record has some condition with reason `Retired` and status `True`. -/
def hasRetiredTrue (r : Revision) : Bool :=
  r.Status.Conditions.any isRetiredTrue

/-- A record the scan can return: non-empty name and a `Retired`/`True` condition. -/
def eligible (r : Revision) : Bool :=
  r.Metadata.Name != "" && hasRetiredTrue r

def rev3 : Revision :=
  { Metadata := { Name := "rev-3", CreationTimestamp := { sec := 2 } },
    Status := { Conditions := [{ Reason := "Retired", Status := "True" }] } }

def rev5 : Revision :=
  { Metadata := { Name := "rev-5", CreationTimestamp := { sec := 5 } },
    Status := { Conditions := [{ Reason := "Retired", Status := "True" }] } }

def rev4 : Revision :=
  { Metadata := { Name := "rev-4", CreationTimestamp := { sec := 4 } },
    Status := { Conditions := [{ Reason := "Ready", Status := "True" }] } }

/-! ## Collaborators, commands and the entry point -/

/-- One observable action of the process, in the order performed. -/
inductive Event where
  | create (path : String)
  | writeString (path data : String)
  | close (path : String)
  | setenv (key value : String)
  | exec (args : List String)
  | logExecuted (args : List String)
  | logOutput (output : String)
  | logPrint (msg : String)
  deriving DecidableEq

/-- The outside world as the program sees it. A Go `error` is kept as its message and
`nil` as `none`. -/
structure Env where
  /-- Result of `os.Create` on a path. -/
  create : String → Option String
  /-- Result of `file.WriteString` of the data on the file of the path. -/
  writeString : String → String → Option String
  /-- Result of running the command with these `cmd.Args`: standard output and error. -/
  output : List String → String × Option String
  /-- Result of `json.Unmarshal` of the listing into a slice of revisions. -/
  unmarshal : String → Except String (List Revision)
  /-- The library routine behind `sort.Slice` with the `less` of line 128. -/
  sortSlice : List Revision → List Revision

/-- How a call ends: it returns, or `log.Fatal` prints the message and exits the process
with a non-zero status. -/
inductive Step (α : Type) where
  | returned (a : α)
  | fatal (msg : String)

def keyFile : String := "/service-account.json"

def activateArgs : List String :=
  ["gcloud", "auth", "activate-service-account", "--key-file=/service-account.json"]

/-- Lines 89-109. -/
def WritePrivateKeyToFile (env : Env) (key : String) : List Event × Step (Option String) :=
  match env.create keyFile with
  | some err => ([Event.create keyFile], Step.returned (some err))
  | none =>
    match env.writeString keyFile key with
    | some err =>
      ([Event.create keyFile, Event.writeString keyFile key, Event.close keyFile],
        Step.returned (some err))
    | none =>
      let pre := [Event.create keyFile, Event.writeString keyFile key,
        Event.setenv "GOOGLE_APPLICATION_CREDENTIALS" keyFile, Event.exec activateArgs]
      match (env.output activateArgs).2 with
      | some err => (pre, Step.fatal err)
      | none => (pre ++ [Event.close keyFile], Step.returned none)

/-- The `cmd.Args` of line 111. -/
def listArgs (project service region : String) : List String :=
  ["gcloud", "run", "revisions", "list", "--project", project, "--service", service,
    "--region", region, "--format", "json", "--limit", "5"]

/-- Lines 110-150. -/
def RetiredRevision (env : Env) (project service region : String) :
    List Event × Except String Revision :=
  let args := listArgs project service region
  match env.output args with
  | (output, some err) =>
    ([Event.exec args, Event.logExecuted args, Event.logOutput output], Except.error err)
  | (output, none) =>
    match env.unmarshal output with
    | Except.error err => ([Event.exec args], Except.error err)
    | Except.ok revisions => ([Event.exec args], selectRetired env.sortSlice revisions)

/-- The `cmd.Args` of line 152. -/
def updateTrafficArgs (project service region revisionName : String) : List String :=
  ["gcloud", "run", "services", "update-traffic", service, "--to-revisions",
    revisionName ++ "=100", "--project", project, "--region", region]

/-- Lines 151-160. -/
def UpdateTraffic (env : Env) (project service region revisionName : String) :
    List Event × Option String :=
  let args := updateTrafficArgs project service region revisionName
  match env.output args with
  | (output, some err) =>
    ([Event.exec args, Event.logExecuted args, Event.logOutput output], some err)
  | (_, none) => ([Event.exec args], none)

/-- Lines 176-191 of `main`: everything after the optional credential set-up. -/
def mainRollback (env : Env) (project service region : String) : List Event × Step Unit :=
  if project == "" || service == "" || region == "" then
    ([], Step.fatal "Error: project, service, and region flags are required")
  else
    let banner :=
      Event.logPrint ("Rolling back service " ++ service ++ " in region " ++ region ++ "...")
    match RetiredRevision env project service region with
    | (t1, Except.error err) =>
      (banner :: t1, Step.fatal ("Error in RetiredRevision():" ++ err))
    | (t1, Except.ok retiredRevision) =>
      let note := Event.logPrint
        ("Update all traffic to revision " ++ retiredRevision.Metadata.Name ++ "...")
      match UpdateTraffic env project service region retiredRevision.Metadata.Name with
      | (t2, some err) =>
        (banner :: t1 ++ note :: t2, Step.fatal ("Error in UpdateTraffic():" ++ err))
      | (t2, none) => (banner :: t1 ++ note :: t2, Step.returned ())

/-- Lines 162-192 with the parsed flag values as arguments. -/
def main (env : Env) (project service region privateKey : String) : List Event × Step Unit :=
  if privateKey != "" then
    match WritePrivateKeyToFile env privateKey with
    | (t0, Step.fatal msg) => (t0, Step.fatal msg)
    | (t0, Step.returned (some err)) =>
      (t0, Step.fatal ("Error in WritePrivateKeyToFile():" ++ err))
    | (t0, Step.returned none) =>
      let rest := mainRollback env project service region
      (t0 ++ rest.1, rest.2)
  else
    mainRollback env project service region

/-- The argument list of an executed command when it is a
`gcloud run services update-traffic` command. -/
def trafficUpdateOf : Event → Option (List String)
  | Event.exec args =>
    if args.take 4 = ["gcloud", "run", "services", "update-traffic"] then some args else none
  | _ => none

/-- The traffic-update commands executed in a trace, in order. -/
def trafficUpdates (trace : List Event) : List (List String) :=
  trace.filterMap trafficUpdateOf

/-- The pure search the scan is compared with: the first record of the list, in list
order, with a non-empty name and some condition of reason `Retired` and status `True`;
that record when there is one, the error `no retired revision found` otherwise. -/
def firstMatchSearch (sorted : List Revision) : Except String Revision :=
  match sorted.find? (fun r => r.Metadata.Name != "" &&
      r.Status.Conditions.any (fun c => c.Reason == "Retired" && c.Status == "True")) with
  | some r => Except.ok r
  | none => Except.error "no retired revision found"

/-! ## Sample data -/

/-- A record with an empty name and a `Retired`/`True` condition. -/
def ghost : Revision :=
  { Metadata := { CreationTimestamp := { sec := 9 } },
    Status := { Conditions := [{ Reason := "Retired", Status := "True" }] } }

/-- Two retired records created at the same instant. -/
def twinA : Revision :=
  { Metadata := { Name := "rev-a", CreationTimestamp := { sec := 7 } },
    Status := { Conditions := [{ Reason := "Retired", Status := "True" }] } }

def twinB : Revision :=
  { Metadata := { Name := "rev-b", CreationTimestamp := { sec := 7 } },
    Status := { Conditions := [{ Reason := "Retired", Status := "True" }] } }

/-- A record whose only `Retired` condition has status `False`. -/
def notRetired : Revision :=
  { Metadata := { Name := "rev-6", CreationTimestamp := { sec := 6 } },
    Status := { Conditions := [{ Reason := "Retired", Status := "False" }] } }

/-- A record whose second condition is the matching one. -/
def mixed : Revision :=
  { Metadata := { Name := "rev-7", CreationTimestamp := { sec := 3 } },
    Status := { Conditions := [{ Reason := "Ready", Status := "True" },
      { Reason := "Retired", Status := "True" }] } }

/-- A world in which every command succeeds and the listing decodes to one record that
is not retired. -/
def envNothingRetired : Env :=
  { create := fun _ => none
    writeString := fun _ _ => none
    output := fun _ => ("", none)
    unmarshal := fun _ => Except.ok [rev4]
    sortSlice := insertionSortLess newerFirst }

/-- A world in which every command succeeds and the listing decodes to the example
records of the specification. -/
def envExample : Env :=
  { create := fun _ => none
    writeString := fun _ _ => none
    output := fun _ => ("", none)
    unmarshal := fun _ => Except.ok [rev3, rev5, rev4]
    sortSlice := insertionSortLess newerFirst }

/-! ## The scan as a first-match search -/

theorem conditionLoop_eq (r : Revision) (cs : List Condition) (acc : Revision) :
    conditionLoop r cs acc = if cs.any isRetiredTrue then r else acc := by
  induction cs with
  | nil => simp [conditionLoop]
  | cons c cs ih =>
    by_cases hc : isRetiredTrue c = true
    · simp [conditionLoop, hc]
    · simp [conditionLoop, hc, ih]

theorem revisionLoop_spec (l : List Revision) :
    ∀ acc : Revision, acc.Metadata.Name = "" →
      (∀ x, l.find? eligible = some x → revisionLoop l acc = x) ∧
      (l.find? eligible = none → (revisionLoop l acc).Metadata.Name = "") := by
  induction l with
  | nil => intro acc h; simp [revisionLoop, h]
  | cons r rs ih =>
    intro acc h
    by_cases hm : hasRetiredTrue r = true
    · have hm2 : r.Status.Conditions.any isRetiredTrue = true := hm
      by_cases hn : r.Metadata.Name = ""
      · have he : eligible r = false := by simp [eligible, hn]
        simpa [revisionLoop, conditionLoop_eq, hm2, hn, List.find?_cons, he] using ih r hn
      · have he : eligible r = true := by simp [eligible, hn, hm]
        simp [revisionLoop, conditionLoop_eq, hm2, hn, List.find?_cons, he]
    · have hm2 : r.Status.Conditions.any isRetiredTrue = false := by
        simpa [hasRetiredTrue] using hm
      have he : eligible r = false := by
        simp only [eligible, Bool.and_eq_false_iff]; right; simpa using hm
      simpa [revisionLoop, conditionLoop_eq, hm2, h, List.find?_cons, he] using ih acc h

theorem scanRetired_eq_find (l : List Revision) :
    scanRetired l =
      match l.find? eligible with
      | some x => Except.ok x
      | none => Except.error "no retired revision found" := by
  have h := revisionLoop_spec l {} rfl
  cases hf : l.find? eligible with
  | none =>
    have := h.2 hf
    simp [scanRetired, this]
  | some x =>
    have hx := h.1 x hf
    have hel : eligible x = true := List.find?_some hf
    have hn : x.Metadata.Name ≠ "" := by
      simp [eligible] at hel; exact hel.1
    simp [scanRetired, hx, hn]

/-! ## The ordering and the insertion sort -/

theorem After_irrefl (t : Time) : t.After t = false := by
  simp [Time.After]

theorem After_asymm (t u : Time) (h : t.After u = true) : u.After t = false := by
  simp only [Time.After, Bool.or_eq_true, Bool.and_eq_true, decide_eq_true_eq] at h
  simp only [Time.After, Bool.or_eq_false_iff, Bool.and_eq_false_iff, decide_eq_false_iff_not]
  omega

theorem After_negtrans (t u v : Time) (h1 : t.After u = false) (h2 : u.After v = false) :
    t.After v = false := by
  simp only [Time.After, Bool.or_eq_false_iff, Bool.and_eq_false_iff,
    decide_eq_false_iff_not] at h1 h2 ⊢
  omega

theorem sinkLeft_perm {α : Type} (less : α → α → Bool) (x : α) (l : List α) :
    (sinkLeft less x l).Perm (x :: l) := by
  induction l with
  | nil => simp [sinkLeft]
  | cons y ys ih =>
    by_cases h : less x y = true
    · simp only [sinkLeft, h, if_true]
      exact (List.Perm.cons y ih).trans (List.Perm.swap x y ys)
    · simp [sinkLeft, h]

theorem sinkLeft_sorted {α : Type} (less : α → α → Bool)
    (hasym : ∀ a b, less a b = true → less b a = false)
    (htrans : ∀ a b c, less a b = false → less b c = false → less a c = false)
    (x : α) (l : List α) (hl : l.Pairwise (fun a b => less a b = false)) :
    (sinkLeft less x l).Pairwise (fun a b => less a b = false) := by
  induction l with
  | nil => simp [sinkLeft]
  | cons y ys ih =>
    rw [List.pairwise_cons] at hl
    by_cases h : less x y = true
    · simp only [sinkLeft, h, if_true]
      rw [List.pairwise_cons]
      refine ⟨?_, ih hl.2⟩
      intro z hz
      have hz2 : z ∈ x :: ys := (sinkLeft_perm less x ys).subset hz
      rcases List.mem_cons.mp hz2 with rfl | hz3
      · exact hasym _ _ h
      · exact hl.1 z hz3
    · have h2 : less x y = false := by simpa using h
      simp only [sinkLeft, h2, Bool.false_eq_true, if_false]
      rw [List.pairwise_cons]
      refine ⟨?_, List.pairwise_cons.mpr hl⟩
      intro z hz
      rcases List.mem_cons.mp hz with rfl | hz3
      · exact h2
      · exact htrans _ _ _ h2 (hl.1 z hz3)

theorem insertionLoop_perm {α : Type} (less : α → α → Bool) (rest : List α) :
    ∀ done : List α, (insertionLoop less done rest).Perm (rest ++ done) := by
  induction rest with
  | nil => intro done; simp [insertionLoop]
  | cons x rest ih =>
    intro done
    simp only [insertionLoop]
    refine (ih _).trans ?_
    refine (List.Perm.append_left rest (sinkLeft_perm less x done)).trans ?_
    simp

theorem insertionLoop_sorted {α : Type} (less : α → α → Bool)
    (hasym : ∀ a b, less a b = true → less b a = false)
    (htrans : ∀ a b c, less a b = false → less b c = false → less a c = false)
    (rest : List α) :
    ∀ done : List α, done.Pairwise (fun a b => less a b = false) →
      (insertionLoop less done rest).Pairwise (fun a b => less a b = false) := by
  induction rest with
  | nil => intro done h; simpa [insertionLoop] using h
  | cons x rest ih =>
    intro done h
    simp only [insertionLoop]
    exact ih _ (sinkLeft_sorted less hasym htrans x done h)

/-- The library insertion sort meets the contract of `sort.Slice` for the `less` of
line 128. -/
theorem insertionSortLess_sortsBy : SortsBy newerFirst (insertionSortLess newerFirst) := by
  intro l
  constructor
  · have h := insertionLoop_perm newerFirst l []
    simp only [List.append_nil] at h
    exact (List.reverse_perm _).trans h
  · unfold insertionSortLess
    rw [List.pairwise_reverse]
    exact insertionLoop_sorted newerFirst
      (fun a b h => After_asymm _ _ h)
      (fun a b c h1 h2 => After_negtrans _ _ _ h1 h2) l [] List.Pairwise.nil

/-! ## What the selection returns -/

theorem sorted_find_newest (l : List Revision)
    (hs : l.Pairwise (fun a b => newerFirst b a = false)) (x : Revision)
    (hf : l.find? eligible = some x) :
    ∀ m ∈ l, eligible m = true → newerFirst m x = false := by
  induction l with
  | nil => simp at hf
  | cons a l ih =>
    rw [List.pairwise_cons] at hs
    intro m hm hem
    by_cases ha : eligible a = true
    · simp only [List.find?_cons, ha, Option.some.injEq] at hf
      subst hf
      rcases List.mem_cons.mp hm with rfl | hm2
      · exact After_irrefl _
      · exact hs.1 m hm2
    · have ha2 : eligible a = false := by simpa using ha
      simp only [List.find?_cons, ha2] at hf
      rcases List.mem_cons.mp hm with rfl | hm2
      · exact absurd hem ha
      · exact ih hs.2 hf m hm2 hem

/-- A successful selection returns an eligible element of the input that no eligible
element of the input is newer than. -/
theorem selectRetired_ok (sortSlice : List Revision → List Revision)
    (hs : SortsBy newerFirst sortSlice) (revs : List Revision) (x : Revision)
    (h : selectRetired sortSlice revs = Except.ok x) :
    x ∈ revs ∧ eligible x = true ∧
      ∀ m ∈ revs, eligible m = true → newerFirst m x = false := by
  unfold selectRetired at h
  rw [scanRetired_eq_find] at h
  cases hf : (sortSlice revs).find? eligible with
  | none => rw [hf] at h; simp at h
  | some y =>
    rw [hf] at h
    simp only [Except.ok.injEq] at h
    subst h
    have hp := (hs revs).1
    refine ⟨hp.subset (List.mem_of_find?_eq_some hf), List.find?_some hf, ?_⟩
    intro m hm hem
    exact sorted_find_newest _ (hs revs).2 y hf m (hp.symm.subset hm) hem

/-- The selection fails exactly when the input has no eligible element; the sorting
routine only needs to rearrange. -/
theorem selectRetired_error_iff (sortSlice : List Revision → List Revision)
    (hp : ∀ l, (sortSlice l).Perm l) (revs : List Revision) :
    selectRetired sortSlice revs = Except.error "no retired revision found" ↔
      ∀ m ∈ revs, eligible m = false := by
  unfold selectRetired
  rw [scanRetired_eq_find]
  cases hf : (sortSlice revs).find? eligible with
  | none =>
    simp only [true_iff]
    intro m hm
    have := List.find?_eq_none.mp hf m ((hp revs).symm.subset hm)
    simpa using this
  | some y =>
    constructor
    · intro habs
      cases habs
    · intro hall
      exfalso
      have h1 := hall y ((hp revs).subset (List.mem_of_find?_eq_some hf))
      have h2 : eligible y = true := List.find?_some hf
      rw [h1] at h2
      exact Bool.noConfusion h2

/-- The selection either returns a record or fails with the one error message. -/
theorem selectRetired_cases (sortSlice : List Revision → List Revision)
    (revs : List Revision) :
    (∃ x, selectRetired sortSlice revs = Except.ok x) ∨
      selectRetired sortSlice revs = Except.error "no retired revision found" := by
  unfold selectRetired
  rw [scanRetired_eq_find]
  cases (sortSlice revs).find? eligible with
  | none => right; rfl
  | some y => left; exact ⟨y, rfl⟩

theorem hasRetiredTrue_iff (r : Revision) :
    hasRetiredTrue r = true ↔
      ∃ c ∈ r.Status.Conditions, c.Reason = "Retired" ∧ c.Status = "True" := by
  simp [hasRetiredTrue, isRetiredTrue, List.any_eq_true]

theorem eligible_iff (r : Revision) :
    eligible r = true ↔
      r.Metadata.Name ≠ "" ∧
        ∃ c ∈ r.Status.Conditions, c.Reason = "Retired" ∧ c.Status = "True" := by
  rw [← hasRetiredTrue_iff]
  simp [eligible]

theorem firstMatchSearch_eq (l : List Revision) : firstMatchSearch l = scanRetired l := by
  rw [scanRetired_eq_find]
  rfl

/-- With an eligible record in the input the selection succeeds. -/
theorem selectRetired_succeeds (sortSlice : List Revision → List Revision)
    (hs : SortsBy newerFirst sortSlice) (revs : List Revision) (r : Revision)
    (hr : r ∈ revs) (he : eligible r = true) :
    ∃ x, selectRetired sortSlice revs = Except.ok x := by
  rcases selectRetired_cases sortSlice revs with h | h
  · exact h
  · have := (selectRetired_error_iff sortSlice (fun l => (hs l).1) revs).mp h r hr
    rw [this] at he
    exact Bool.noConfusion he

/-- Whatever the sorting routine does, a returned record is eligible. -/
theorem selectRetired_ok_eligible (sortSlice : List Revision → List Revision)
    (revs : List Revision) (x : Revision)
    (h : selectRetired sortSlice revs = Except.ok x) : eligible x = true := by
  unfold selectRetired at h
  rw [scanRetired_eq_find] at h
  cases hf : (sortSlice revs).find? eligible with
  | none => rw [hf] at h; cases h
  | some y =>
    rw [hf] at h
    simp only [Except.ok.injEq] at h
    subst h
    exact List.find?_some hf

/-- The example listing of the specification under any conforming sorting routine. -/
theorem selectRetired_example (sortSlice : List Revision → List Revision)
    (hs : SortsBy newerFirst sortSlice) :
    selectRetired sortSlice [rev3, rev5, rev4] = Except.ok rev5 := by
  obtain ⟨x, hx⟩ :=
    selectRetired_succeeds sortSlice hs [rev3, rev5, rev4] rev5 (by simp) rfl
  have hok := selectRetired_ok sortSlice hs _ x hx
  have hmem := hok.1
  simp only [List.mem_cons, List.mem_singleton, List.not_mem_nil, or_false] at hmem
  rcases hmem with rfl | rfl | rfl
  · have h5 := hok.2.2 rev5 (by simp) rfl
    exact absurd h5 (by decide)
  · exact hx
  · exact absurd hok.2.1 (by decide)

/-! ## Traces of the entry point -/

theorem trafficUpdates_append (a b : List Event) :
    trafficUpdates (a ++ b) = trafficUpdates a ++ trafficUpdates b := by
  simp [trafficUpdates, List.filterMap_append]

theorem trafficUpdates_WritePrivateKeyToFile (env : Env) (key : String) :
    trafficUpdates (WritePrivateKeyToFile env key).1 = [] := by
  unfold WritePrivateKeyToFile
  split
  · rfl
  · split
    · rfl
    · split <;> rfl

theorem trafficUpdates_RetiredRevision (env : Env) (project service region : String) :
    trafficUpdates (RetiredRevision env project service region).1 = [] := by
  unfold RetiredRevision
  simp only
  split
  · simp [trafficUpdates, trafficUpdateOf, listArgs]
  · split <;> simp [trafficUpdates, trafficUpdateOf, listArgs]

theorem trafficUpdates_UpdateTraffic (env : Env) (project service region name : String) :
    trafficUpdates (UpdateTraffic env project service region name).1 =
      [updateTrafficArgs project service region name] := by
  unfold UpdateTraffic
  simp only
  split <;> simp [trafficUpdates, trafficUpdateOf, updateTrafficArgs]

/-- The three ways `RetiredRevision` ends: the listing command fails, the listing does
not decode, or the decoded listing goes through the selection. -/
theorem RetiredRevision_result (env : Env) (project service region : String) :
    (∀ out err, env.output (listArgs project service region) = (out, some err) →
      (RetiredRevision env project service region).2 = Except.error err) ∧
    (∀ out err, env.output (listArgs project service region) = (out, none) →
      env.unmarshal out = Except.error err →
      (RetiredRevision env project service region).2 = Except.error err) ∧
    (∀ out revs, env.output (listArgs project service region) = (out, none) →
      env.unmarshal out = Except.ok revs →
      (RetiredRevision env project service region).2 = selectRetired env.sortSlice revs) := by
  refine ⟨?_, ?_, ?_⟩
  · intro out err h
    simp [RetiredRevision, h]
  · intro out err h hu
    simp [RetiredRevision, h, hu]
  · intro out revs h hu
    simp [RetiredRevision, h, hu]

theorem mainRollback_error (env : Env) (project service region e : String)
    (h : (RetiredRevision env project service region).2 = Except.error e) :
    (∃ msg, (mainRollback env project service region).2 = Step.fatal msg) ∧
      trafficUpdates (mainRollback env project service region).1 = [] := by
  have ht := trafficUpdates_RetiredRevision env project service region
  unfold mainRollback
  split
  · exact ⟨⟨_, rfl⟩, rfl⟩
  · cases hrr : RetiredRevision env project service region with
    | mk t1 res =>
      rw [hrr] at h ht
      simp only at h ht
      subst h
      refine ⟨⟨_, rfl⟩, ?_⟩
      simpa [trafficUpdates, trafficUpdateOf] using ht

theorem mainRollback_ok (env : Env) (project service region : String) (rev : Revision)
    (hflags : (project == "" || service == "" || region == "") = false)
    (h : (RetiredRevision env project service region).2 = Except.ok rev) :
    trafficUpdates (mainRollback env project service region).1 =
      [updateTrafficArgs project service region rev.Metadata.Name] := by
  have ht := trafficUpdates_RetiredRevision env project service region
  have hu := trafficUpdates_UpdateTraffic env project service region rev.Metadata.Name
  unfold mainRollback
  rw [hflags]
  cases hrr : RetiredRevision env project service region with
  | mk t1 res =>
    rw [hrr] at h ht
    simp only at h ht
    subst h
    cases hut : UpdateTraffic env project service region rev.Metadata.Name with
    | mk t2 res2 =>
      rw [hut] at hu
      simp only at hu
      have hcons : ∀ (m1 m2 : String),
          trafficUpdates (Event.logPrint m1 :: t1 ++ Event.logPrint m2 :: t2) =
            [updateTrafficArgs project service region rev.Metadata.Name] := by
        intro m1 m2
        have e1 : Event.logPrint m1 :: t1 ++ Event.logPrint m2 :: t2 =
            [Event.logPrint m1] ++ t1 ++ ([Event.logPrint m2] ++ t2) := by simp
        rw [e1, trafficUpdates_append, trafficUpdates_append, trafficUpdates_append, ht, hu]
        rfl
      cases res2 with
      | none => simpa [hut] using hcons _ _
      | some err => simpa [hut] using hcons _ _

theorem main_error (env : Env) (project service region privateKey e : String)
    (h : (RetiredRevision env project service region).2 = Except.error e) :
    (∃ msg, (main env project service region privateKey).2 = Step.fatal msg) ∧
      trafficUpdates (main env project service region privateKey).1 = [] := by
  have hw := trafficUpdates_WritePrivateKeyToFile env privateKey
  have hm := mainRollback_error env project service region e h
  unfold main
  split
  · cases hwk : WritePrivateKeyToFile env privateKey with
    | mk t0 st =>
      rw [hwk] at hw
      simp only at hw
      cases st with
      | fatal msg => exact ⟨⟨_, rfl⟩, hw⟩
      | returned res =>
        cases res with
        | some err => exact ⟨⟨_, rfl⟩, hw⟩
        | none =>
          refine ⟨hm.1, ?_⟩
          simp only
          rw [trafficUpdates_append, hw, hm.2]
          rfl
  · exact hm

theorem main_ok (env : Env) (project service region privateKey : String) (rev : Revision)
    (hflags : (project == "" || service == "" || region == "") = false)
    (hkey : privateKey = "" ∨ (WritePrivateKeyToFile env privateKey).2 = Step.returned none)
    (h : (RetiredRevision env project service region).2 = Except.ok rev) :
    trafficUpdates (main env project service region privateKey).1 =
      [updateTrafficArgs project service region rev.Metadata.Name] := by
  have hw := trafficUpdates_WritePrivateKeyToFile env privateKey
  have hm := mainRollback_ok env project service region rev hflags h
  unfold main
  split
  · rename_i hne
    rcases hkey with hk | hk
    · simp [hk] at hne
    · cases hwk : WritePrivateKeyToFile env privateKey with
      | mk t0 st =>
        rw [hwk] at hw hk
        simp only at hw hk
        subst hk
        simp only
        rw [trafficUpdates_append, hw, hm]
        rfl
  · exact hm

/-! ## The claims -/

/-- C1, as stated, fails: the one-record input `[ghost]` has a record with a
`Retired`/`True` condition, and the selection answers `no retired revision found`. -/
theorem C1_empty_name_match_not_found :
    (∃ r ∈ [ghost], ∃ c ∈ r.Status.Conditions, c.Reason = "Retired" ∧ c.Status = "True") ∧
      selectRetired (insertionSortLess newerFirst) [ghost] =
        Except.error "no retired revision found" :=
  ⟨⟨ghost, by simp, { Reason := "Retired", Status := "True" }, by simp [ghost], rfl, rfl⟩, rfl⟩

/-- C1, amended: when some record of the input has a non-empty name and a condition with
reason `Retired` and status `True`, the selection succeeds, and the record it returns is
an element of the input, has a non-empty name and is not the zero-valued record. -/
theorem C1_selection_returns_input_record (sortSlice : List Revision → List Revision)
    (hs : SortsBy newerFirst sortSlice) (revs : List Revision)
    (h : ∃ r ∈ revs, r.Metadata.Name ≠ "" ∧
      ∃ c ∈ r.Status.Conditions, c.Reason = "Retired" ∧ c.Status = "True") :
    ∃ x, selectRetired sortSlice revs = Except.ok x ∧ x ∈ revs ∧
      x.Metadata.Name ≠ "" ∧ x ≠ {} := by
  obtain ⟨r, hr, hel⟩ := h
  obtain ⟨x, hx⟩ := selectRetired_succeeds sortSlice hs revs r hr ((eligible_iff r).mpr hel)
  have hok := selectRetired_ok sortSlice hs revs x hx
  have hn := ((eligible_iff x).mp hok.2.1).1
  refine ⟨x, hx, hok.1, hn, ?_⟩
  intro hz
  apply hn
  rw [hz]

theorem C1_selection_returns_input_record_witness :
    SortsBy newerFirst (insertionSortLess newerFirst) ∧
      (∃ r ∈ [rev4, rev3], r.Metadata.Name ≠ "" ∧
        ∃ c ∈ r.Status.Conditions, c.Reason = "Retired" ∧ c.Status = "True") ∧
      ∃ x, selectRetired (insertionSortLess newerFirst) [rev4, rev3] = Except.ok x ∧
        x ∈ [rev4, rev3] ∧ x.Metadata.Name ≠ "" ∧ x ≠ {} :=
  have h : ∃ r ∈ [rev4, rev3], r.Metadata.Name ≠ "" ∧
      ∃ c ∈ r.Status.Conditions, c.Reason = "Retired" ∧ c.Status = "True" :=
    ⟨rev3, by simp, by decide, { Reason := "Retired", Status := "True" }, by simp [rev3],
      rfl, rfl⟩
  ⟨insertionSortLess_sortsBy, h,
    C1_selection_returns_input_record _ insertionSortLess_sortsBy [rev4, rev3] h⟩

/-- C2: when no record of the input has a condition with reason `Retired` and status
`True` (the empty input included), the selection returns the error
`no retired revision found` and hence no record at all. -/
theorem C2_no_match_not_found (sortSlice : List Revision → List Revision)
    (hs : SortsBy newerFirst sortSlice) (revs : List Revision)
    (h : ∀ r ∈ revs, ¬ ∃ c ∈ r.Status.Conditions, c.Reason = "Retired" ∧ c.Status = "True") :
    selectRetired sortSlice revs = Except.error "no retired revision found" ∧
      (∀ x, selectRetired sortSlice revs ≠ Except.ok x) ∧
      selectRetired sortSlice [] = Except.error "no retired revision found" := by
  have key : ∀ l : List Revision,
      (∀ r ∈ l, ¬ ∃ c ∈ r.Status.Conditions, c.Reason = "Retired" ∧ c.Status = "True") →
      selectRetired sortSlice l = Except.error "no retired revision found" := by
    intro l hl
    apply (selectRetired_error_iff sortSlice (fun l => (hs l).1) l).mpr
    intro m hm
    cases hem : eligible m with
    | false => rfl
    | true => exact absurd ((eligible_iff m).mp hem).2 (hl m hm)
  have h1 := key revs h
  refine ⟨h1, ?_, key [] (by simp)⟩
  intro x hx
  rw [h1] at hx
  cases hx

theorem C2_no_match_not_found_witness :
    SortsBy newerFirst (insertionSortLess newerFirst) ∧
      (∀ r ∈ [rev4, notRetired],
        ¬ ∃ c ∈ r.Status.Conditions, c.Reason = "Retired" ∧ c.Status = "True") ∧
      selectRetired (insertionSortLess newerFirst) [rev4, notRetired] =
        Except.error "no retired revision found" :=
  have h : ∀ r ∈ [rev4, notRetired],
      ¬ ∃ c ∈ r.Status.Conditions, c.Reason = "Retired" ∧ c.Status = "True" := by
    simp [rev4, notRetired]
  ⟨insertionSortLess_sortsBy, h,
    (C2_no_match_not_found _ insertionSortLess_sortsBy [rev4, notRetired] h).1⟩

/-- C3: on an input whose records all have non-empty names, a successful selection
returns a record whose creation timestamp no record with a `Retired`/`True` condition is
after; so of two matching records created at `T1 > T2` the one created at `T2` is never
returned; and the example listing `rev-3`, `rev-5`, `rev-4` yields `rev-5`. -/
theorem C3_newest_retired_wins (sortSlice : List Revision → List Revision)
    (hs : SortsBy newerFirst sortSlice) :
    (∀ (revs : List Revision) (x : Revision),
      (∀ r ∈ revs, r.Metadata.Name ≠ "") →
      selectRetired sortSlice revs = Except.ok x →
      ∀ m ∈ revs, (∃ c ∈ m.Status.Conditions, c.Reason = "Retired" ∧ c.Status = "True") →
        m.Metadata.CreationTimestamp.After x.Metadata.CreationTimestamp = false) ∧
    (∀ (revs : List Revision) (r1 r2 : Revision),
      (∀ r ∈ revs, r.Metadata.Name ≠ "") → r1 ∈ revs → r2 ∈ revs →
      (∃ c ∈ r1.Status.Conditions, c.Reason = "Retired" ∧ c.Status = "True") →
      (∃ c ∈ r2.Status.Conditions, c.Reason = "Retired" ∧ c.Status = "True") →
      r1.Metadata.CreationTimestamp.After r2.Metadata.CreationTimestamp = true →
      selectRetired sortSlice revs ≠ Except.ok r2) ∧
    selectRetired sortSlice [rev3, rev5, rev4] = Except.ok rev5 := by
  have general : ∀ (revs : List Revision) (x : Revision),
      (∀ r ∈ revs, r.Metadata.Name ≠ "") →
      selectRetired sortSlice revs = Except.ok x →
      ∀ m ∈ revs, (∃ c ∈ m.Status.Conditions, c.Reason = "Retired" ∧ c.Status = "True") →
        m.Metadata.CreationTimestamp.After x.Metadata.CreationTimestamp = false := by
    intro revs x hnames hx m hm hc
    exact (selectRetired_ok sortSlice hs revs x hx).2.2 m hm
      ((eligible_iff m).mpr ⟨hnames m hm, hc⟩)
  refine ⟨general, ?_, selectRetired_example sortSlice hs⟩
  intro revs r1 r2 hnames h1 _ hc1 _ hafter hsel
  have := general revs r2 hnames hsel r1 h1 hc1
  rw [this] at hafter
  exact Bool.noConfusion hafter

theorem C3_newest_retired_wins_witness :
    SortsBy newerFirst (insertionSortLess newerFirst) ∧
      (∀ r ∈ [rev3, rev5, rev4], r.Metadata.Name ≠ "") ∧
      rev5.Metadata.CreationTimestamp.After rev3.Metadata.CreationTimestamp = true ∧
      selectRetired (insertionSortLess newerFirst) [rev3, rev5, rev4] ≠ Except.ok rev3 ∧
      selectRetired (insertionSortLess newerFirst) [rev3, rev5, rev4] = Except.ok rev5 :=
  have hn : ∀ r ∈ [rev3, rev5, rev4], r.Metadata.Name ≠ "" := by
    simp [rev3, rev5, rev4]
  have hc : ∀ r, r = rev3 ∨ r = rev5 →
      ∃ c ∈ r.Status.Conditions, c.Reason = "Retired" ∧ c.Status = "True" := by
    intro r hr
    rcases hr with rfl | rfl
    · exact ⟨{ Reason := "Retired", Status := "True" }, by simp [rev3], rfl, rfl⟩
    · exact ⟨{ Reason := "Retired", Status := "True" }, by simp [rev5], rfl, rfl⟩
  ⟨insertionSortLess_sortsBy, hn, rfl,
    (C3_newest_retired_wins _ insertionSortLess_sortsBy).2.1 [rev3, rev5, rev4] rev5 rev3 hn
      (by simp) (by simp) (hc rev5 (Or.inr rfl)) (hc rev3 (Or.inl rfl)) rfl,
    (C3_newest_retired_wins _ insertionSortLess_sortsBy).2.2⟩

/-- C4, as stated, fails: `twinA` and `twinB` are retired records with different names and
the same creation timestamp; the listing in one order yields `rev-a`, the same listing in
the other order yields `rev-b`. -/
theorem C4_tie_follows_input_order :
    [twinA, twinB].Perm [twinB, twinA] ∧
      selectRetired (insertionSortLess newerFirst) [twinA, twinB] = Except.ok twinA ∧
      selectRetired (insertionSortLess newerFirst) [twinB, twinA] = Except.ok twinB ∧
      twinA.Metadata.Name ≠ twinB.Metadata.Name :=
  ⟨List.Perm.swap twinB twinA [], rfl, rfl, by decide⟩

/-- C4, amended: when at most one eligible record of the input (non-empty name and a
`Retired`/`True` condition) carries the newest creation timestamp found among the eligible
records, the selection returns the same outcome on the input and on every permutation of
it: the same record, or the error on both. -/
theorem C4_order_independent_without_ties (sortSlice : List Revision → List Revision)
    (hs : SortsBy newerFirst sortSlice) (revs revs2 : List Revision)
    (hperm : revs.Perm revs2)
    (huniq : ∀ a ∈ revs, ∀ b ∈ revs, eligible a = true → eligible b = true →
      (∀ m ∈ revs, eligible m = true → newerFirst m a = false) →
      (∀ m ∈ revs, eligible m = true → newerFirst m b = false) → a = b) :
    selectRetired sortSlice revs = selectRetired sortSlice revs2 := by
  rcases selectRetired_cases sortSlice revs with ⟨x, hx⟩ | herr
  · have hok := selectRetired_ok sortSlice hs revs x hx
    obtain ⟨y, hy⟩ :=
      selectRetired_succeeds sortSlice hs revs2 x (hperm.subset hok.1) hok.2.1
    have hok2 := selectRetired_ok sortSlice hs revs2 y hy
    have hxy : x = y :=
      huniq x hok.1 y (hperm.symm.subset hok2.1) hok.2.1 hok2.2.1 hok.2.2
        (fun m hm hem => hok2.2.2 m (hperm.subset hm) hem)
    rw [hx, hy, hxy]
  · rw [herr]
    symm
    apply (selectRetired_error_iff sortSlice (fun l => (hs l).1) revs2).mpr
    intro m hm
    exact (selectRetired_error_iff sortSlice (fun l => (hs l).1) revs).mp herr m
      (hperm.symm.subset hm)

theorem C4_order_independent_without_ties_witness :
    SortsBy newerFirst (insertionSortLess newerFirst) ∧
      [rev3, rev5, rev4].Perm [rev4, rev3, rev5] ∧
      selectRetired (insertionSortLess newerFirst) [rev3, rev5, rev4] =
        selectRetired (insertionSortLess newerFirst) [rev4, rev3, rev5] :=
  have hperm : [rev3, rev5, rev4].Perm [rev4, rev3, rev5] :=
    ((List.Perm.swap rev4 rev5 []).cons rev3).trans (List.Perm.swap rev4 rev3 [rev5])
  ⟨insertionSortLess_sortsBy, hperm,
    C4_order_independent_without_ties _ insertionSortLess_sortsBy _ _ hperm (by
      intro a ha b hb hea heb hna hnb
      have h5 : rev5 ∈ [rev3, rev5, rev4] := by simp
      have e5 : eligible rev5 = true := rfl
      have ka := hna rev5 h5 e5
      have kb := hnb rev5 h5 e5
      simp only [List.mem_cons, List.mem_singleton, List.not_mem_nil, or_false] at ha hb
      rcases ha with rfl | rfl | rfl
      · exact absurd ka (by decide)
      · rcases hb with rfl | rfl | rfl
        · exact absurd kb (by decide)
        · rfl
        · exact absurd heb (by decide)
      · exact absurd hea (by decide))⟩

/-- C5: whenever the selection succeeds the returned record has a non-empty name; a
record with an empty name is never the result, whatever its conditions. -/
theorem C5_returned_name_nonempty (sortSlice : List Revision → List Revision)
    (revs : List Revision) (x : Revision)
    (h : selectRetired sortSlice revs = Except.ok x) : x.Metadata.Name ≠ "" :=
  ((eligible_iff x).mp (selectRetired_ok_eligible sortSlice revs x h)).1

theorem C5_returned_name_nonempty_witness :
    selectRetired (insertionSortLess newerFirst) [ghost, rev3] = Except.ok rev3 ∧
      rev3.Metadata.Name ≠ "" :=
  ⟨rfl, C5_returned_name_nonempty (insertionSortLess newerFirst) [ghost, rev3] rev3 rfl⟩

/-- C6: every record the selection returns has a condition whose reason is `Retired` and
whose status is `True`, both in that one condition; a record without such a condition,
for instance one with only `Retired`/`False`, is never the result. -/
theorem C6_returned_record_is_retired (sortSlice : List Revision → List Revision)
    (revs : List Revision) :
    (∀ x, selectRetired sortSlice revs = Except.ok x →
      ∃ c ∈ x.Status.Conditions, c.Reason = "Retired" ∧ c.Status = "True") ∧
    (∀ r : Revision,
      (∀ c ∈ r.Status.Conditions, ¬ (c.Reason = "Retired" ∧ c.Status = "True")) →
      selectRetired sortSlice revs ≠ Except.ok r) := by
  have h1 : ∀ x, selectRetired sortSlice revs = Except.ok x →
      ∃ c ∈ x.Status.Conditions, c.Reason = "Retired" ∧ c.Status = "True" :=
    fun x hx => ((eligible_iff x).mp (selectRetired_ok_eligible sortSlice revs x hx)).2
  refine ⟨h1, ?_⟩
  intro r hr hsel
  obtain ⟨c, hc, hrt⟩ := h1 r hsel
  exact hr c hc hrt

theorem C6_returned_record_is_retired_witness :
    (∀ c ∈ notRetired.Status.Conditions, ¬ (c.Reason = "Retired" ∧ c.Status = "True")) ∧
      selectRetired (insertionSortLess newerFirst) [notRetired, rev3] ≠
        Except.ok notRetired ∧
      selectRetired (insertionSortLess newerFirst) [notRetired, rev3] = Except.ok rev3 ∧
      ∃ c ∈ rev3.Status.Conditions, c.Reason = "Retired" ∧ c.Status = "True" :=
  have h : ∀ c ∈ notRetired.Status.Conditions,
      ¬ (c.Reason = "Retired" ∧ c.Status = "True") := by
    simp [notRetired]
  ⟨h,
    (C6_returned_record_is_retired (insertionSortLess newerFirst) [notRetired, rev3]).2
      notRetired h,
    rfl,
    (C6_returned_record_is_retired (insertionSortLess newerFirst) [notRetired, rev3]).1
      rev3 rfl⟩

/-- C7: a one-record input whose record has a non-empty name and a `Retired`/`True`
condition at any position of its condition list, before and after any other conditions,
yields that record. -/
theorem C7_any_condition_position (sortSlice : List Revision → List Revision)
    (hs : SortsBy newerFirst sortSlice) (r : Revision) (before after : List Condition)
    (c : Condition) (hname : r.Metadata.Name ≠ "")
    (hconds : r.Status.Conditions = before ++ c :: after)
    (hreason : c.Reason = "Retired") (hstatus : c.Status = "True") :
    selectRetired sortSlice [r] = Except.ok r := by
  have hel : eligible r = true :=
    (eligible_iff r).mpr ⟨hname, c, by rw [hconds]; simp, hreason, hstatus⟩
  obtain ⟨x, hx⟩ := selectRetired_succeeds sortSlice hs [r] r (by simp) hel
  have hmem := (selectRetired_ok sortSlice hs [r] x hx).1
  rw [List.mem_singleton] at hmem
  rw [hx, hmem]

theorem C7_any_condition_position_witness :
    SortsBy newerFirst (insertionSortLess newerFirst) ∧
      mixed.Status.Conditions =
        [{ Reason := "Ready", Status := "True" }] ++
          ({ Reason := "Retired", Status := "True" } : Condition) :: [] ∧
      selectRetired (insertionSortLess newerFirst) [mixed] = Except.ok mixed :=
  ⟨insertionSortLess_sortsBy, rfl,
    C7_any_condition_position _ insertionSortLess_sortsBy mixed
      [{ Reason := "Ready", Status := "True" }] []
      { Reason := "Retired", Status := "True" } (by decide) rfl rfl rfl⟩

/-- C8: whenever `RetiredRevision` returns an error, whichever it is, `main` ends in a
fatal exit and its trace holds no traffic-update command; a trace that holds a
traffic-update command comes from a run whose `RetiredRevision` call succeeded. -/
theorem C8_fail_fast_before_rerouting (env : Env)
    (project service region privateKey : String) :
    (∀ e, (RetiredRevision env project service region).2 = Except.error e →
      (∃ msg, (main env project service region privateKey).2 = Step.fatal msg) ∧
        trafficUpdates (main env project service region privateKey).1 = []) ∧
    (trafficUpdates (main env project service region privateKey).1 ≠ [] →
      ∃ rev, (RetiredRevision env project service region).2 = Except.ok rev) := by
  refine ⟨fun e h => main_error env project service region privateKey e h, ?_⟩
  intro hne
  cases hres : (RetiredRevision env project service region).2 with
  | ok rev => exact ⟨rev, rfl⟩
  | error e => exact absurd (main_error env project service region privateKey e hres).2 hne

theorem C8_fail_fast_before_rerouting_witness :
    (RetiredRevision envNothingRetired "proj" "svc" "asia-east1").2 =
        Except.error "no retired revision found" ∧
      (∃ msg, (main envNothingRetired "proj" "svc" "asia-east1" "").2 = Step.fatal msg) ∧
      trafficUpdates (main envNothingRetired "proj" "svc" "asia-east1" "").1 = [] :=
  ⟨rfl,
    (C8_fail_fast_before_rerouting envNothingRetired "proj" "svc" "asia-east1" "").1
      "no retired revision found" rfl⟩

/-- C9: when `main` reaches the selection (the three flags are non-empty and the optional
credential step returned without error) and the selection succeeds, the trace of `main`
holds exactly one traffic-update command, whose argument list names the selected revision
alone with `=100`; and `UpdateTraffic` executes that one command and no other. -/
theorem C9_single_full_traffic_target (env : Env)
    (project service region privateKey : String) (rev : Revision)
    (hproject : project ≠ "") (hservice : service ≠ "") (hregion : region ≠ "")
    (hkey : privateKey = "" ∨ (WritePrivateKeyToFile env privateKey).2 = Step.returned none)
    (hsel : (RetiredRevision env project service region).2 = Except.ok rev) :
    trafficUpdates (main env project service region privateKey).1 =
        [["gcloud", "run", "services", "update-traffic", service, "--to-revisions",
          rev.Metadata.Name ++ "=100", "--project", project, "--region", region]] ∧
      ∀ name : String, ∃ rest,
        (UpdateTraffic env project service region name).1 =
          Event.exec ["gcloud", "run", "services", "update-traffic", service,
            "--to-revisions", name ++ "=100", "--project", project, "--region", region]
            :: rest ∧
        ∀ ev ∈ rest, ∀ args, ev ≠ Event.exec args := by
  constructor
  · have hflags : (project == "" || service == "" || region == "") = false := by
      simp [hproject, hservice, hregion]
    exact main_ok env project service region privateKey rev hflags hkey hsel
  · intro name
    unfold UpdateTraffic
    simp only
    split
    · exact ⟨_, rfl, by simp⟩
    · exact ⟨[], rfl, by simp⟩

theorem C9_single_full_traffic_target_witness :
    (RetiredRevision envExample "proj" "svc" "asia-east1").2 = Except.ok rev5 ∧
      trafficUpdates (main envExample "proj" "svc" "asia-east1" "").1 =
        [["gcloud", "run", "services", "update-traffic", "svc", "--to-revisions",
          "rev-5=100", "--project", "proj", "--region", "asia-east1"]] :=
  ⟨rfl,
    (C9_single_full_traffic_target envExample "proj" "svc" "asia-east1" "" rev5
      (by decide) (by decide) (by decide) (Or.inl rfl) rfl).1⟩

/-- C10: the loops with the accumulator `retiredRevision`, run on the sorted list, give
what the first-match search gives on that list: the first record with a non-empty name
and a `Retired`/`True` condition, or the error `no retired revision found`. A record with
an empty name at the head of the list does not stop the scan: the result is that of the
scan of the records after it. -/
theorem C10_scan_is_first_match :
    (∀ (sortSlice : List Revision → List Revision) (revs : List Revision),
      selectRetired sortSlice revs = firstMatchSearch (sortSlice revs)) ∧
    (∀ sorted : List Revision, scanRetired sorted = firstMatchSearch sorted) ∧
    (∀ (e : Revision) (rest : List Revision), e.Metadata.Name = "" →
      scanRetired (e :: rest) = scanRetired rest) := by
  refine ⟨fun sortSlice revs => (firstMatchSearch_eq _).symm,
    fun sorted => (firstMatchSearch_eq _).symm, ?_⟩
  intro e rest he
  have hel : eligible e = false := by simp [eligible, he]
  rw [scanRetired_eq_find, scanRetired_eq_find, List.find?_cons, hel]

theorem C10_scan_is_first_match_witness :
    ghost.Metadata.Name = "" ∧
      scanRetired [ghost, rev3] = scanRetired [rev3] ∧
      scanRetired [ghost, rev3] = Except.ok rev3 :=
  ⟨rfl, C10_scan_is_first_match.2.2 ghost [rev3] rfl, rfl⟩

end Rollback
